import Mathlib

/-!
Verification of the flac codec library (Go) against its natural-language
specification. Go source files are shallowly embedded: byte streams become
`List Nat` (each element a byte value), machine integers become `Nat`/`Int`
with explicit wrap-around where Go overflow semantics matter, and fallible
functions return `Except GoError`.
-/

namespace Flac

/-- Error outcomes of the embedded Go functions. Each constructor corresponds
to an error value returned somewhere in the source; payload-free except where
a payload is needed to distinguish concrete messages. -/
inductive GoError where
  | eof
  | unexpectedEOF
  | unexpectedContinuationByte
  | expectedContinuationByte
  | overlong
  | lpcOrderMismatch
  | lpcNegativeShift
  | lpcSampleCountMismatch
  | atLeastOneSeekPoint
  | invalidSeekPointOrder (sampleNum prev : Nat)
  | duplicateSeekPoint (sampleNum : Nat)
  | cdTrackOffsetNotMultipleOf588 (offset : Nat)
  | duplicatedTrackNum (num : Nat)
  | invalidTrackNumZero
  | cdTrackNumExceeds99 (num : Nat)
  | invalidLeadOutCDTrackNum (num : Nat)
  | invalidLeadOutTrackNum (num : Nat)
  | invalidPadding
  | atLeastOneTrackIndex
  | readTooManyBits
  | reservedResidualMethod
  | noSeekTable
  | noSeeker
  | seekOutOfRange (sampleNum : Nat)
  | signatureMismatch
  | notStreamInfo
  deriving DecidableEq

/-- Interpretation of a `uint64` value as Go `int32` (conversion truncates to
the low 32 bits, reinterpreted as two's complement). -/
def wrap32 (x : Int) : Int := (x + 2 ^ 31) % 2 ^ 32 - 2 ^ 31

/-- Go `int64` wrap-around for overflowing additions. -/
def wrap64 (x : Int) : Int := (x + 2 ^ 63) % 2 ^ 64 - 2 ^ 63

namespace utf8

/-- Byte-prefix discriminants and payload masks of internal/utf8
(src/unnamed/part_018). -/
def tx : Nat := 0x80

/-- Bit pattern 1100 0000. -/
def t2 : Nat := 0xC0

/-- Bit pattern 1110 0000. -/
def t3 : Nat := 0xE0

/-- Bit pattern 1111 0000. -/
def t4 : Nat := 0xF0

/-- Bit pattern 1111 1000. -/
def t5 : Nat := 0xF8

/-- Bit pattern 1111 1100. -/
def t6 : Nat := 0xFC

/-- Bit pattern 1111 1110; commented out in the constant block of src/unnamed/part_018
(`t7 = 0xFE`) yet referenced by `Decode` in src/unnamed/part_017, so its
value is taken from that comment. -/
def t7 : Nat := 0xFE

/-- Bit pattern 1111 1111; same provenance as `t7` (`t8 = 0xFF`). -/
def t8 : Nat := 0xFF

/-- Bit pattern 0011 1111. -/
def maskx : Nat := 0x3F

/-- Bit pattern 0001 1111. -/
def mask2 : Nat := 0x1F

/-- Bit pattern 0000 1111. -/
def mask3 : Nat := 0x0F

/-- Bit pattern 0000 0111. -/
def mask4 : Nat := 0x07

/-- Bit pattern 0000 0011. -/
def mask5 : Nat := 0x03

/-- Bit pattern 0000 0001. -/
def mask6 : Nat := 0x01

/-- Largest value stored in 1 byte. -/
def rune1Max : Nat := 2 ^ 7 - 1

/-- Largest value stored in 2 bytes. -/
def rune2Max : Nat := 2 ^ 11 - 1

/-- Largest value stored in 3 bytes. -/
def rune3Max : Nat := 2 ^ 16 - 1

/-- Largest value stored in 4 bytes. -/
def rune4Max : Nat := 2 ^ 21 - 1

/-- Largest value stored in 5 bytes. -/
def rune5Max : Nat := 2 ^ 26 - 1

/-- Largest value stored in 6 bytes. -/
def rune6Max : Nat := 2 ^ 31 - 1

/-- Largest value stored in 7 bytes. -/
def rune7Max : Nat := 2 ^ 36 - 1

/-- Continuation bytes of `Encode`: the loop
`for i := l - 1; i >= 0; i--` writing `tx | (x>>uint(6*i))&maskx`. -/
def contBytes (x : Nat) : Nat → List Nat
  | 0 => []
  | i + 1 => (tx ||| ((x >>> (6 * i)) &&& maskx)) :: contBytes x i

/-- Embeds `utf8.Encode` of src/unnamed/part_018: encodes x as a "UTF-8" coded
number, returning the written bytes. For values above `rune1Max` the switch
selects the number of continuation bytes `l` and the bits of the leading
byte; in the `rune7Max` arm the source assigns `bits = 0`. Values above
`rune7Max` leave `l = 0` and `bits = 0` (no switch arm matches). -/
def Encode (x : Nat) : List Nat :=
  if x ≤ rune1Max then [x]
  else
    let lbits : Nat × Nat :=
      if x ≤ rune2Max then (1, t2 ||| ((x >>> 6) &&& mask2))
      else if x ≤ rune3Max then (2, t3 ||| ((x >>> (6 * 2)) &&& mask3))
      else if x ≤ rune4Max then (3, t4 ||| ((x >>> (6 * 3)) &&& mask4))
      else if x ≤ rune5Max then (4, t5 ||| ((x >>> (6 * 4)) &&& mask5))
      else if x ≤ rune6Max then (5, t6 ||| ((x >>> (6 * 5)) &&& mask6))
      else if x ≤ rune7Max then (6, 0)
      else (0, 0)
    (lbits.2 % 256) :: contBytes x lbits.1

/-- Continuation-byte loop of `utf8.Decode` (src/unnamed/part_017, lines
86-100): shift the accumulator left by 6, read a byte, require the
`10xxxxxx` shape, and fold in its low 6 bits. A short read yields
`io.ErrUnexpectedEOF`. -/
def contLoop (x : Nat) (input : List Nat) : Nat → Except GoError (Nat × List Nat)
  | 0 => .ok (x, input)
  | l + 1 =>
    match input with
    | [] => .error .unexpectedEOF
    | c :: rest =>
      if c < tx ∨ t2 ≤ c then .error .expectedContinuationByte
      else contLoop ((x <<< 6) ||| (c &&& maskx)) rest l

/-- Overlong-representation check of `utf8.Decode` (lines 102-128): after
reading `l` continuation bytes the value must not fit in `l` bytes. -/
def overlongCheck (l x : Nat) : Bool :=
  match l with
  | 1 => x ≤ rune1Max
  | 2 => x ≤ rune2Max
  | 3 => x ≤ rune3Max
  | 4 => x ≤ rune4Max
  | 5 => x ≤ rune5Max
  | 6 => x ≤ rune6Max
  | _ => false

/-- Embeds `utf8.Decode` of src/unnamed/part_017: decodes a "UTF-8" coded number
from the byte stream, returning the value and the unconsumed bytes. -/
def Decode (input : List Nat) : Except GoError (Nat × List Nat) :=
  match input with
  | [] => .error .eof
  | c0 :: rest =>
    if c0 < tx then .ok (c0, rest)
    else if c0 < t2 then .error .unexpectedContinuationByte
    else
      let lx : Nat × Nat :=
        if c0 < t3 then (1, c0 &&& mask2)
        else if c0 < t4 then (2, c0 &&& mask3)
        else if c0 < t5 then (3, c0 &&& mask4)
        else if c0 < t6 then (4, c0 &&& mask5)
        else if c0 < t7 then (5, c0 &&& mask6)
        else if c0 < t8 then (6, 0)
        else (0, 0)
      match contLoop lx.2 rest lx.1 with
      | .error e => .error e
      | .ok (x, rest') =>
        if overlongCheck lx.1 x then .error .overlong else .ok (x, rest')

end utf8

namespace frame

/-- Embeds `frame.Channels` of src/frame/frame.go: the eleven channel assignments.
The first eight are independent-channel modes; the last three use
inter-channel decorrelation. -/
inductive Channels where
  | mono
  | lr
  | lrc
  | lrLsRs
  | lrcLsRs
  | lrcLfeLsRs
  | lrcLfeCsSlSr
  | lrcLfeLsRsSlSr
  | leftSide
  | sideRight
  | midSide
  deriving DecidableEq

/-- One element of the MidSide branch of `Frame.Correlate` (src/frame/frame.go,
lines 155-173), new value of `mid[i]`: the source computes `m := mid[i] * 2`
(an `int32` multiplication, hence `wrap32`), restores the discarded least
significant bit with `m |= side[i] & 1` — written here as adding the parity
`s % 2`, since `m` is even at that point and `s & 1` is the low bit of the
two's complement of `s` — then stores `(m + side[i]) / 2` with Go's
truncating `int32` division. -/
def midCorrL (m s : Int) : Int := Int.tdiv (wrap32 (wrap32 (m * 2) + s % 2 + s)) 2

/-- One element of the MidSide branch of `Frame.Correlate`, new value of
`side[i]`: `(m - side[i]) / 2` with the same `m`. -/
def midCorrR (m s : Int) : Int := Int.tdiv (wrap32 (wrap32 (m * 2) + s % 2 - s)) 2

/-- One element of the MidSide branch of `Frame.Decorrelate`
(src/frame/frame.go, lines 208-222):
`mid := int32((int64(l) + int64(r)) >> 1)` — the `int64` sum is exact, the
shift is arithmetic, and the conversion back to `int32` truncates. -/
def midDecorr (l r : Int) : Int := wrap32 ((l + r) >>> (1 : Nat))

/-- One element of the side computation `side := l - r` (an `int32`
subtraction) used by all three branches of `Frame.Decorrelate`. -/
def sideDecorr (l r : Int) : Int := wrap32 (l - r)

/-- Embeds `Frame.Correlate` of src/frame/frame.go (lines 137-175), acting on the
two subframe sample slices `a = Subframes[0].Samples` and
`b = Subframes[1].Samples`; samples are Go `int32`, so each arithmetic step
wraps through `wrap32`. In the source the MidSide loop updates `mid[i]` and
`side[i]` from locals `m`, `s` read before either store, so the two result
lists are computed from the original pairs. Assignments other than the
three decorrelated ones leave the samples unchanged. -/
def Correlate (ch : Channels) (a b : List Int) : List Int × List Int :=
  match ch with
  | .leftSide =>
    -- right = left - side, stored into b
    (a, List.zipWith (fun l s => wrap32 (l - s)) a b)
  | .sideRight =>
    -- left = right + side, stored into a
    (List.zipWith (fun s r => wrap32 (r + s)) a b, b)
  | .midSide =>
    (List.zipWith midCorrL a b, List.zipWith midCorrR a b)
  | _ => (a, b)

/-- Embeds `Frame.Decorrelate` of src/frame/frame.go (lines 177-224); as in the
source, the MidSide loop reads `l`, `r` into locals before either store. -/
def Decorrelate (ch : Channels) (a b : List Int) : List Int × List Int :=
  match ch with
  | .leftSide =>
    -- side = left - right, stored into b
    (a, List.zipWith sideDecorr a b)
  | .sideRight =>
    -- side = left - right, stored into a
    (List.zipWith sideDecorr a b, b)
  | .midSide =>
    (List.zipWith midDecorr a b, List.zipWith sideDecorr a b)
  | _ => (a, b)

/-- Per-assignment sample bound under which the decorrelation round trip is
exact: the full `int32` range for LeftSide and SideRight, and `2^30` for
MidSide (where `m + s` may otherwise overflow `int32`). -/
def corrBound (ch : Channels) : Int :=
  match ch with
  | .midSide => 2 ^ 30
  | _ => 2 ^ 31

/-- Embeds `frame.FixedCoeffs` of src/unnamed/part_009 (lines 51-56): LPC
coefficients used in fixed encoding, indexed by prediction order; index 0
is absent from the array literal and is the empty (nil) slice. -/
def FixedCoeffs (order : Nat) : List Int :=
  match order with
  | 1 => [1]
  | 2 => [2, -1]
  | 3 => [3, -3, 1]
  | 4 => [4, -6, 4, -1]
  | _ => []

/-- The inner accumulation of the LPC recurrence:
`sample += int64(c) * int64(samples[i-j-1])` over the coefficients, with
`prevRev` listing the already-decoded samples most recent first. Each
product of two `int32` values is exact in `int64`; the running addition
wraps in `int64`. -/
def lpcSum (coeffs prevRev : List Int) : Int :=
  (List.zipWith (fun c s => c * s) coeffs prevRev).foldl (fun acc p => wrap64 (acc + p)) 0

/-- The predicted value `int32(sample >> uint(shift))`: arithmetic right
shift of the `int64` accumulator, truncated to `int32`. -/
def lpcPredict (coeffs prevRev : List Int) (shift : Nat) : Int :=
  wrap32 (lpcSum coeffs prevRev >>> shift)

/-- The decoding loop of `Subframe.decodeLPC` (src/unnamed/part_009, lines
371-377): `subframe.Samples[i] += int32(sample >> uint(shift))` for `i`
from the order upward, where each entry initially holds a residual.
`accRev` is the reversed list of already-decoded samples. -/
def lpcRun (coeffs : List Int) (shift : Nat) (accRev : List Int) : List Int → List Int
  | [] => accRev
  | r :: rest => lpcRun coeffs shift (wrap32 (r + lpcPredict coeffs accRev shift) :: accRev) rest

/-- Embeds `Subframe.decodeLPC` of src/unnamed/part_009 (lines 358-380): checks
that the coefficient count matches the order, that the shift is
nonnegative, and that the sample count matches, then runs the recurrence
over the samples after the warm-up. -/
def decodeLPC (coeffs : List Int) (shift : Int) (order nsamples : Nat) (samples : List Int) :
    Except GoError (List Int) :=
  if coeffs.length ≠ order then .error .lpcOrderMismatch
  else if shift < 0 then .error .lpcNegativeShift
  else if nsamples ≠ samples.length then .error .lpcSampleCountMismatch
  else .ok ((lpcRun coeffs shift.toNat (samples.take order).reverse (samples.drop order)).reverse)

/-- The residual loop of `getLPCResiduals` (src/encode_subframe.go, lines
355-362): `residual := subframe.Samples[i] - int32(sample>>uint(shift))`,
walking the original samples after the warm-up with `prevRev` the reversed
prefix before position `i`. -/
def residCore (coeffs : List Int) (shift : Nat) (prevRev : List Int) : List Int → List Int
  | [] => []
  | s :: rest => wrap32 (s - lpcPredict coeffs prevRev shift) :: residCore coeffs shift (s :: prevRev) rest

/-- Embeds `getLPCResiduals` of src/encode_subframe.go (lines 341-365): same three
validity checks as `decodeLPC`, then the subtraction loop. -/
def getLPCResiduals (coeffs : List Int) (shift : Int) (order nsamples : Nat) (samples : List Int) :
    Except GoError (List Int) :=
  if coeffs.length ≠ order then .error .lpcOrderMismatch
  else if shift < 0 then .error .lpcNegativeShift
  else if nsamples ≠ samples.length then .error .lpcSampleCountMismatch
  else .ok (residCore coeffs shift.toNat (samples.take order).reverse (samples.drop order))

end frame

/-- Splits `n` bytes off the front of a byte stream, the `io.ReadFull`
contract: all `n` bytes or failure; `none` models the short read (which
the callers map to an EOF error). -/
def readBytes : Nat → List Nat → Option (List Nat × List Nat)
  | 0, data => some ([], data)
  | _ + 1, [] => none
  | n + 1, b :: rest =>
    match readBytes n rest with
    | none => none
    | some (bs, rest') => some (b :: bs, rest')

/-- Big-endian value of a byte list, as read by
`binary.Read(..., binary.BigEndian, ...)`. -/
def beVal (bytes : List Nat) : Nat := bytes.foldl (fun acc b => acc * 256 + b) 0

namespace meta

/-- Embeds `meta.PlaceholderPoint` of src/meta/seektable.go: the sample number
that marks a placeholder seek point. -/
def PlaceholderPoint : Nat := 0xFFFFFFFFFFFFFFFF

/-- Embeds `meta.SeekPoint` of src/meta/seektable.go: 8-byte sample number, 8-byte
offset, 2-byte sample count, all big-endian. -/
structure SeekPoint where
  sampleNum : Nat
  offset : Nat
  nSamples : Nat
  deriving DecidableEq

/-- The point loop of `parseSeekTable` (src/meta/seektable.go, lines
42-64). `idx` is the loop index `i` and `prev` mirrors the `prev` variable
of the source, which is declared before the loop, initialized to zero, and
passed along unchanged because the loop body never assigns to it. `k` is
the number of points still to read. -/
def parseSeekTableLoop (prev : Nat) (idx : Nat) (data : List Nat) :
    Nat → Except GoError (List SeekPoint)
  | 0 => .ok []
  | k + 1 =>
    match readBytes 18 data with
    | none => .error .unexpectedEOF
    | some (chunk, rest) =>
      let point : SeekPoint :=
        { sampleNum := beVal (chunk.take 8)
          offset := beVal ((chunk.drop 8).take 8)
          nSamples := beVal (chunk.drop 16) }
      if idx ≠ 0 ∧ point.sampleNum ≠ PlaceholderPoint ∧ point.sampleNum < prev then
        .error (.invalidSeekPointOrder point.sampleNum prev)
      else if idx ≠ 0 ∧ point.sampleNum ≠ PlaceholderPoint ∧ point.sampleNum = prev then
        .error (.duplicateSeekPoint point.sampleNum)
      else
        match parseSeekTableLoop prev (idx + 1) rest k with
        | .error e => .error e
        | .ok points => .ok (point :: points)

/-- Embeds `Block.parseSeekTable` of src/meta/seektable.go (lines 33-67): the
number of points is the body length divided by 18; at least one point is
required; each point is read and checked against `prev`. -/
def parseSeekTable (length : Nat) (data : List Nat) : Except GoError (List SeekPoint) :=
  if length / 18 < 1 then .error .atLeastOneSeekPoint
  else parseSeekTableLoop 0 0 data (length / 18)

/-- Embeds `meta.CueSheetTrackIndex` of src/meta/cuesheet.go. -/
structure CueSheetTrackIndex where
  offset : Nat
  num : Nat
  deriving DecidableEq

/-- Embeds `meta.CueSheetTrack` of src/meta/cuesheet.go; `isrc` holds the byte
values of the ISRC string after `stringFromSZ` truncation at the first
NUL. -/
structure CueSheetTrack where
  offset : Nat
  num : Nat
  isrc : List Nat
  isAudio : Bool
  hasPreEmphasis : Bool
  indicies : List CueSheetTrackIndex
  deriving DecidableEq

/-- The index loop of `parseTrack` (src/meta/cuesheet.go, lines 145-164):
each index is an 8-byte offset, a 1-byte number, and 3 reserved bytes
drained through the `zeros` reader, which fails on a nonzero byte and
treats a short read as silent EOF. -/
def parseIndices (data : List Nat) : Nat → Except GoError (List CueSheetTrackIndex × List Nat)
  | 0 => .ok ([], data)
  | k + 1 =>
    match readBytes 8 data with
    | none => .error .unexpectedEOF
    | some (offBytes, d1) =>
      match d1 with
      | [] => .error .unexpectedEOF
      | numB :: d2 =>
        if (d2.take 3).any (· ≠ 0) then .error .invalidPadding
        else
          match parseIndices (d2.drop 3) k with
          | .error e => .error e
          | .ok (indices, rest) =>
            .ok ({ offset := beVal offBytes, num := numB } :: indices, rest)

/-- The remainder of `parseTrack` after the track-number checks
(src/meta/cuesheet.go, lines 95-166): 12 ISRC bytes truncated at the first
NUL by `stringFromSZ`; one flag byte carrying `IsAudio` (bit 7 clear means
audio), `HasPreEmphasis` (bit 6) and 6 reserved bits that must be zero; 13
reserved bytes drained through the `zeros` reader; then the index count
and the indices, where a zero count is only legal for the lead-out
track. -/
def parseTrackBody (offset num : Nat) (isLeadOut : Bool) (data : List Nat) :
    Except GoError (CueSheetTrack × List Nat) :=
  match readBytes 12 data with
  | none => .error .unexpectedEOF
  | some (szISRC, d1) =>
    let isrc := szISRC.takeWhile (· ≠ 0)
    match d1 with
    | [] => .error .unexpectedEOF
    | x :: d2 =>
      let isAudio := x &&& 0x80 = 0
      let hasPreEmphasis := x &&& 0x40 ≠ 0
      if x &&& 0x3F ≠ 0 then .error .invalidPadding
      else if (d2.take 13).any (· ≠ 0) then .error .invalidPadding
      else
        match d2.drop 13 with
        | [] => .error .unexpectedEOF
        | nIdx :: d3 =>
          if nIdx < 1 then
            if ¬isLeadOut then .error .atLeastOneTrackIndex
            else .ok (⟨offset, num, isrc, isAudio, hasPreEmphasis, []⟩, d3)
          else
            match parseIndices d3 nIdx with
            | .error e => .error e
            | .ok (indices, rest) =>
              .ok (⟨offset, num, isrc, isAudio, hasPreEmphasis, indices⟩, rest)

/-- Embeds `Block.parseTrack` of src/meta/cuesheet.go (lines 59-167): reads the
8-byte track offset (with the CD-DA divisibility-by-588 check) and the
1-byte track number, enforces uniqueness (`uniq` is the set of already-used
numbers) and nonzero-ness, then applies the track-number rules. The
`else if track.Num != 170` arm is attached to the
`!isLeadOut && track.Num >= 100` test exactly as in the source, so it fires
for every compact-disc track that is not both lead-out-positioned and
numbered 170. -/
def parseTrack (isCompactDisc : Bool) (i numTracks : Nat) (uniq : List Nat)
    (data : List Nat) : Except GoError (CueSheetTrack × List Nat) :=
  match readBytes 8 data with
  | none => .error .unexpectedEOF
  | some (offBytes, d1) =>
    let offset := beVal offBytes
    if isCompactDisc ∧ offset % 588 ≠ 0 then .error (.cdTrackOffsetNotMultipleOf588 offset)
    else
      match d1 with
      | [] => .error .unexpectedEOF
      | num :: d2 =>
        if num ∈ uniq then .error (.duplicatedTrackNum num)
        else if num = 0 then .error .invalidTrackNumZero
        else
          let isLeadOut := i = numTracks - 1
          if isCompactDisc then
            if ¬isLeadOut ∧ num ≥ 100 then .error (.cdTrackNumExceeds99 num)
            else if num ≠ 170 then .error (.invalidLeadOutCDTrackNum num)
            else parseTrackBody offset num isLeadOut d2
          else if isLeadOut ∧ num ≠ 255 then .error (.invalidLeadOutTrackNum num)
          else parseTrackBody offset num isLeadOut d2

end meta

/-- Embeds `frame.unexpected` of src/frame/frame.go (lines 427-432): maps `io.EOF`
to `io.ErrUnexpectedEOF` and leaves other errors alone. -/
def unexpected (e : GoError) : GoError :=
  if e = .eof then .unexpectedEOF else e

namespace bits

/-- Embeds `bits.Reader` of src/internal/bits/reader.go: `x` holds between 0 and 7
bits buffered since previous read operations, `n` is how many, and `data`
is the remaining byte stream of the underlying reader. -/
structure Reader where
  x : Nat
  n : Nat
  data : List Nat
  deriving DecidableEq

/-- Number of bits still available to the reader. -/
def Reader.bitsLeft (br : Reader) : Nat := 8 * br.data.length + br.n

/-- Embeds `bits.Reader.Read` of src/internal/bits/reader.go (lines 25-83): reads
the next `k` bits MSB-first, at most 64, serving buffered bits first, then
whole bytes from the underlying stream, buffering the unused low bits of
the final byte. A short underlying read with nothing available is `io.EOF`
and a partial one is `io.ErrUnexpectedEOF` (the `io.ReadFull` contract). -/
def Reader.read (br : Reader) (k : Nat) : Except GoError (Nat × Reader) :=
  if k = 0 then .ok (0, br)
  else if k > 64 then .error .readTooManyBits
  else if br.n = k then .ok (br.x, ⟨0, 0, br.data⟩)
  else if br.n > k then
    .ok (br.x >>> (br.n - k), ⟨br.x % 2 ^ (br.n - k), br.n - k, br.data⟩)
  else
    let kk := k - br.n
    let fullBytes := kk / 8
    let bitsTail := kk % 8
    let nbytes := if bitsTail > 0 then fullBytes + 1 else fullBytes
    if br.data.length < nbytes then
      .error (if br.data.length = 0 then .eof else .unexpectedEOF)
    else
      let chunk := br.data.take nbytes
      let rest := br.data.drop nbytes
      let xmid := chunk.dropLast.foldl (fun acc b => (acc <<< 8) ||| b) br.x
      let last := chunk.getLastD 0
      if bitsTail > 0 then
        .ok ((xmid <<< bitsTail) ||| (last >>> (8 - bitsTail)),
          ⟨last % 2 ^ (8 - bitsTail), 8 - bitsTail, rest⟩)
      else
        .ok ((xmid <<< 8) ||| last, ⟨0, 0, rest⟩)

/-- Modelled from the spec: `read_unary` counts leading zero bits
terminated by a 1 bit (spec 4.1); `bits.Reader.ReadUnary` is absent from
src/. Implemented by reading one bit at a time; `fuel` bounds the
recursion and is chosen larger than the bits available, so the fuel-0 arm
is unreachable (a genuinely exhausted reader fails inside `read` first). -/
def readUnaryFuel : Nat → Reader → Except GoError (Nat × Reader)
  | 0, _ => .error .unexpectedEOF
  | fuel + 1, br =>
    match br.read 1 with
    | .error e => .error e
    | .ok (bit, br') =>
      if bit = 1 then .ok (0, br')
      else
        match readUnaryFuel fuel br' with
        | .error e => .error e
        | .ok (x, br'') => .ok (x + 1, br'')

/-- Unary read entry point: fuel set above the number of available bits. -/
def Reader.readUnary (br : Reader) : Except GoError (Nat × Reader) :=
  readUnaryFuel (br.bitsLeft + 1) br

/-- Embeds `bits.DecodeZigZag` of src/unnamed/part_019: the source computes
`int32(x>>1) ^ -int32(x&1)`; xor with 0 is the identity and xor with -1
(all ones) is the two's-complement bitwise complement `fun a => -a - 1`,
giving this arithmetic form. `x` is a `uint32`, so `x>>1` fits `int32`. -/
def DecodeZigZag (x : Nat) : Int :=
  if x &&& 1 = 1 then -((x >>> 1 : Nat) : Int) - 1 else ((x >>> 1 : Nat) : Int)

/-- Modelled from the spec: sign-extension interpreting `x` as a signed
`n`-bit two's-complement value (spec 4.1); `bits.IntN` is absent from
src/. For `n = 0` the source's `1 << (n-1)` shifts by a huge unsigned
amount and yields 0, so the value is returned unextended. -/
def IntN (x n : Nat) : Int :=
  if n = 0 then (x : Int)
  else if x &&& (1 <<< (n - 1)) ≠ 0 then (x : Int) - 2 ^ n
  else (x : Int)

end bits

namespace frame

/-- Go `uint64` to `int32` conversion (truncate to the low 32 bits,
reinterpret as two's complement). -/
def toInt32 (u : Nat) : Int := wrap32 (u : Int)

/-- Embeds `signExtend` of src/frame/subframe.go (lines 315-323): if bit `n-1` of
`x` is set, or the bits above `n` into the value (`x | ^uint64(0)<<n`,
i.e. `x ||| (2^64 - 2^n)`) before truncating to `int32`; `n = 0` makes the
test mask `1 << (n-1)` vanish in Go, leaving the plain conversion. -/
def signExtend (x n : Nat) : Int :=
  if n = 0 then toInt32 x
  else if x &&& (1 <<< (n - 1)) ≠ 0 then toInt32 (x ||| (2 ^ 64 - 2 ^ n))
  else toInt32 x

/-- Embeds `Subframe.decodeRiceResidual` of src/unnamed/part_009 (lines 231-248):
a unary-coded quotient, `k` binary remainder bits, fold as
`uint32(high<<k | low)` (the shift wraps in `uint64` before the `uint32`
truncation), then ZigZag decode. -/
def decodeRiceResidual (br : bits.Reader) (k : Nat) : Except GoError (Int × bits.Reader) :=
  match br.readUnary with
  | .error e => .error (unexpected e)
  | .ok (high, br1) =>
    match br1.read k with
    | .error e => .error (unexpected e)
    | .ok (low, br2) =>
      .ok (bits.DecodeZigZag ((((high <<< k) % 2 ^ 64) ||| low) % 2 ^ 32), br2)

/-- Embeds `frame.RicePartition` of src/unnamed/part_009. -/
structure RicePartition where
  param : Nat
  escapedBitsPerSample : Nat
  deriving DecidableEq

/-- Embeds `frame.RiceSubframe` of src/unnamed/part_009. -/
structure RiceSubframe where
  partOrder : Nat
  partitions : List RicePartition
  deriving DecidableEq

/-- The per-partition sample count of `decodeRicePart` (src/unnamed/
part_009, lines 280-288), computed in a Go `int` and hence possibly
negative: for partition order 0 it is `NSamples - Order`; otherwise
partition 0 gets `NSamples/nparts - Order` and the others `NSamples/nparts`
(`nparts = 2^partOrder`, truncating division of nonnegative values). -/
def ricePartNSamples (nsamples order partOrder i : Nat) : Int :=
  if partOrder = 0 then (nsamples : Int) - order
  else if i ≠ 0 then ((nsamples / 2 ^ partOrder : Nat) : Int)
  else ((nsamples / 2 ^ partOrder : Nat) : Int) - order

/-- The Rice-coded residual loop of a partition (src/unnamed/part_009,
lines 315-322), executed once per sample; a negative count runs zero
times. -/
def riceResLoop (br : bits.Reader) (k : Nat) : Nat → Except GoError (List Int × bits.Reader)
  | 0 => .ok ([], br)
  | j + 1 =>
    match decodeRiceResidual br k with
    | .error e => .error e
    | .ok (r, br') =>
      match riceResLoop br' k j with
      | .error e => .error e
      | .ok (rs, br'') => .ok (r :: rs, br'')

/-- The escaped-partition loop (src/unnamed/part_009, lines 300-311): `n`
raw bits per sample, sign-extended by `bits.IntN` and truncated to
`int32`. -/
def escLoop (br : bits.Reader) (n : Nat) : Nat → Except GoError (List Int × bits.Reader)
  | 0 => .ok ([], br)
  | j + 1 =>
    match br.read n with
    | .error e => .error (unexpected e)
    | .ok (sample, br') =>
      match escLoop br' n j with
      | .error e => .error e
      | .ok (rs, br'') => .ok (wrap32 (bits.IntN sample n) :: rs, br'')

/-- The partition loop of `decodeRicePart` (src/unnamed/part_009, lines
269-323): read the 4- or 5-bit Rice parameter; `0xF`/`0x1F` escapes the
partition into raw form with a 5-bit sample size; otherwise the samples
are Rice coded. `i` is the partition index, the final argument counts the
partitions still to process. -/
def ricePartLoop (paramSize nsamples order partOrder : Nat) (br : bits.Reader) (i : Nat) :
    Nat → Except GoError (List RicePartition × List Int × bits.Reader)
  | 0 => .ok ([], [], br)
  | k + 1 =>
    match br.read paramSize with
    | .error e => .error (unexpected e)
    | .ok (param, br1) =>
      let count := ricePartNSamples nsamples order partOrder i
      if paramSize = 4 ∧ param = 0xF ∨ paramSize = 5 ∧ param = 0x1F then
        match br1.read 5 with
        | .error e => .error (unexpected e)
        | .ok (n, br2) =>
          match escLoop br2 n count.toNat with
          | .error e => .error e
          | .ok (vals, br3) =>
            match ricePartLoop paramSize nsamples order partOrder br3 (i + 1) k with
            | .error e => .error e
            | .ok (parts, samples, br4) => .ok (⟨param, n⟩ :: parts, vals ++ samples, br4)
      else
        match riceResLoop br1 param count.toNat with
        | .error e => .error e
        | .ok (vals, br3) =>
          match ricePartLoop paramSize nsamples order partOrder br3 (i + 1) k with
          | .error e => .error e
          | .ok (parts, samples, br4) => .ok (⟨param, 0⟩ :: parts, vals ++ samples, br4)

/-- Embeds `Subframe.decodeRicePart` of src/unnamed/part_009 (lines 252-326): a
4-bit partition order followed by `2^partOrder` partitions; it performs no
divisibility or positivity check on the partition arithmetic. Returns the
`RiceSubframe` record, the decoded residual samples (appended in partition
order), and the advanced reader. -/
def decodeRicePart (nsamples order : Nat) (br : bits.Reader) (paramSize : Nat) :
    Except GoError (RiceSubframe × List Int × bits.Reader) :=
  match br.read 4 with
  | .error e => .error (unexpected e)
  | .ok (partOrder, br1) =>
    match ricePartLoop paramSize nsamples order partOrder br1 0 (2 ^ partOrder) with
    | .error e => .error e
    | .ok (parts, samples, br2) => .ok (⟨partOrder, parts⟩, samples, br2)

/-- Embeds `Subframe.decodeResiduals` of src/unnamed/part_009 (lines 330-352): a
2-bit residual coding method selecting the 4-bit (`00`) or 5-bit (`01`)
Rice parameter size; `10`/`11` are reserved. -/
def decodeResiduals (nsamples order : Nat) (br : bits.Reader) :
    Except GoError (RiceSubframe × List Int × bits.Reader) :=
  match br.read 2 with
  | .error e => .error (unexpected e)
  | .ok (method, br1) =>
    if method = 0 then decodeRicePart nsamples order br1 4
    else if method = 1 then decodeRicePart nsamples order br1 5
    else .error .reservedResidualMethod

/-- The warm-up sample loop of `Subframe.decodeFixed` (src/unnamed/
part_009, lines 386-394): `order` samples of `bps` bits each,
sign-extended. -/
def warmLoop (br : bits.Reader) (bps : Nat) : Nat → Except GoError (List Int × bits.Reader)
  | 0 => .ok ([], br)
  | k + 1 =>
    match br.read bps with
    | .error e => .error (unexpected e)
    | .ok (x, br') =>
      match warmLoop br' bps k with
      | .error e => .error e
      | .ok (xs, br'') => .ok (signExtend x bps :: xs, br'')

/-- Embeds `Subframe.decodeFixed` of src/unnamed/part_009 (lines 384-406): the
warm-up samples, then the residuals, then `decodeLPC` with the fixed
coefficients of the prediction order and shift 0. The subframe's `Samples`
slice starts empty, so the LPC stage sees the warm-up samples followed by
the residuals. -/
def decodeFixed (bps nsamples order : Nat) (br : bits.Reader) :
    Except GoError (List Int × RiceSubframe × bits.Reader) :=
  match warmLoop br bps order with
  | .error e => .error e
  | .ok (warm, br1) =>
    match decodeResiduals nsamples order br1 with
    | .error e => .error e
    | .ok (rice, res, br2) =>
      match decodeLPC (FixedCoeffs order) 0 order nsamples (warm ++ res) with
      | .error e => .error e
      | .ok final => .ok (final, rice, br2)

/-- Specification helper (not a source function): the total number of
samples the partition loop appends for partitions `i, i+1, ..., i+k-1`. -/
def ricePartTotal (nsamples order partOrder i : Nat) : Nat → Nat
  | 0 => 0
  | k + 1 => (ricePartNSamples nsamples order partOrder i).toNat
      + ricePartTotal nsamples order partOrder (i + 1) k

end frame

namespace stream

/-- An audio frame as recorded while scanning a stream, the data
`makeSeekTable` collects per frame (src/unnamed/part_002, lines 253-275):
its byte offset relative to `dataStart`, its first sample number
(`frame.SampleNumber()`), and its block size. -/
structure FrameRec where
  offset : Nat
  sampleNumber : Nat
  blockSize : Nat
  deriving DecidableEq

/-- The loop of `Stream.searchFromStart` (src/unnamed/part_002, lines
221-227): return the `prev` point as soon as a point's
`SampleNum + NSamples` (a `uint64` sum, wrapping) reaches the target;
otherwise slide `prev` forward. -/
def searchLoop (prev : meta.SeekPoint) (target : Nat) : List meta.SeekPoint → meta.SeekPoint
  | [] => prev
  | p :: rest =>
    if (p.sampleNum + p.nSamples) % 2 ^ 64 ≥ target then prev
    else searchLoop p target rest

/-- Embeds `Stream.searchFromStart` of src/unnamed/part_002 (lines 216-230): an
empty table yields `ErrNoSeektable`; otherwise the loop starts with
`prev = points[0]` and ranges over all points. -/
def searchFromStart (points : List meta.SeekPoint) (target : Nat) : Except GoError meta.SeekPoint :=
  match points with
  | [] => .error .noSeekTable
  | p0 :: _ => .ok (searchLoop p0 target points)

/-- The frame walk of `Stream.Seek` (src/unnamed/part_002, lines 126-143):
parse frames in sequence until one satisfies
`frame.SampleNumber() + uint64(frame.BlockSize) > sampleNum` (a wrapping
`uint64` sum) and return its first sample number; running out of frames is
the `io.EOF` of `ParseNext`, which propagates as the error result. -/
def seekWalk (target : Nat) : List FrameRec → Except GoError Nat
  | [] => .error .eof
  | f :: rest =>
    if (f.sampleNumber + f.blockSize) % 2 ^ 64 > target then .ok f.sampleNumber
    else seekWalk target rest

/-- Embeds `Stream.Seek` of src/unnamed/part_002 (lines 104-144), modelled after
the on-demand seek-table branch with the seek table already in hand. The
byte stream is abstracted as the list of recorded frames: seeking to
`dataStart + point.Offset` positions the reader at the first recorded
frame whose offset is not below the point's (exact when the point
references a frame boundary and offsets increase), and each `ParseNext`
yields the next recorded frame. The `sampleNum < 0` test of the source is
vacuous for `uint64` and omitted. -/
def Seek (infoNSamples : Nat) (points : List meta.SeekPoint) (frames : List FrameRec)
    (target : Nat) : Except GoError Nat :=
  if infoNSamples ≠ 0 ∧ target ≥ infoNSamples then .error (.seekOutOfRange target)
  else
    match searchFromStart points target with
    | .error e => .error e
    | .ok point => seekWalk target (frames.dropWhile (fun f => decide (f.offset < point.offset)))

/-- Well-formedness: the recorded frames are contiguous starting at sample
`s` — each frame's first sample number continues where the previous frame
ended. -/
def framesContiguous : List FrameRec → Nat → Bool
  | [], _ => true
  | f :: rest, s => f.sampleNumber == s && framesContiguous rest (s + f.blockSize)

/-- Well-formedness: recorded byte offsets strictly increase. -/
def offsetsIncreasing : List FrameRec → Bool
  | [] => true
  | [_] => true
  | f :: g :: rest => decide (f.offset < g.offset) && offsetsIncreasing (g :: rest)

/-- Total number of inter-channel samples across the recorded frames. -/
def totalSamples (frames : List FrameRec) : Nat := (frames.map (·.blockSize)).sum

/-- A seek point is valid for the stream when it records the byte offset,
first sample number and block size of an actual frame. -/
def pointValid (frames : List FrameRec) (p : meta.SeekPoint) : Prop :=
  ∃ f ∈ frames, p.offset = f.offset ∧ p.sampleNum = f.sampleNumber ∧ p.nSamples = f.blockSize

/-- Result of the entry checks of `Stream.Seek` when the underlying reader
does not implement `io.ReadSeeker` (for C10): the checked assertion inside
`makeSeekTable` versus the unchecked assertion in `Seek` itself. -/
inductive SeekEntry where
  | errNoSeeker
  | panicReadSeeker
  | proceeds
  deriving DecidableEq

/-- The first statement of `Stream.makeSeekTable` (src/unnamed/part_002,
lines 234-238): the checked type assertion
`rs, ok := stream.r.(io.ReadSeeker)`, returning `ErrNoSeeker` when the
reader is not seekable. The seekable success path continues with I/O that
is irrelevant to the non-seekable case modelled here. -/
def makeSeekTableStep (isReadSeeker : Bool) : Except GoError Unit :=
  if ¬isReadSeeker then .error .noSeeker else .ok ()

/-- The entry sequence of `Stream.Seek` (src/unnamed/part_002, lines
104-111): when `seekTable == nil && seekTableSize > 0`, call
`makeSeekTable` and return its error if any; then execute the unchecked
type assertion `rs := stream.r.(io.ReadSeeker)`, which panics when the
reader is not an `io.ReadSeeker`. -/
def seekEntry (isReadSeeker seekTableIsNil : Bool) (seekTableSize : Int) : SeekEntry :=
  if seekTableIsNil = true ∧ seekTableSize > 0 then
    match makeSeekTableStep isReadSeeker with
    | .error _ => .errNoSeeker
    | .ok _ => if isReadSeeker then .proceeds else .panicReadSeeker
  else if isReadSeeker then .proceeds else .panicReadSeeker

/-- Embeds `flacSignature` of src/flac.go: the 4 bytes `"fLaC"`. -/
def flacSignature : List Nat := [0x66, 0x4C, 0x61, 0x43]

/-- Embeds `id3Signature` of src/flac.go: the 3 bytes `"ID3"`. -/
def id3Signature : List Nat := [0x49, 0x44, 0x33]

/-- Embeds `Stream.skipID3v2` of src/flac.go (lines 85-102). The
`bufio.NewReader(stream.r)` call returns `stream.r` itself —
`bufio.NewReaderSize` hands back an existing `*bufio.Reader` whose buffer
is large enough, and `New`/`Parse` wrap the input in a `*bufio.Reader`
before `parseStreamInfo` runs — so the reads here consume exactly the
stated bytes of the stream: 2 discarded bytes, a 4-byte synchsafe size
`(b0<<21)|(b1<<14)|(b2<<7)|b3`, and `size` discarded bytes. A short read
surfaces as an I/O error. -/
def skipID3v2 (data : List Nat) : Except GoError (List Nat) :=
  match readBytes 2 data with
  | none => .error .eof
  | some (_, d1) =>
    match readBytes 4 d1 with
    | none => .error .eof
    | some (sizeBuf, d2) =>
      match sizeBuf with
      | [b0, b1, b2, b3] =>
        let size := (b0 <<< 21) ||| (b1 <<< 14) ||| (b2 <<< 7) ||| b3
        if d2.length < size then .error .eof
        else .ok (d2.drop size)
      | _ => .error .eof

/-- Modelled from the spec: the 34-byte StreamInfo body (spec 3 and 4.3) —
the `meta` package's StreamInfo body parser is not under src/. Fields are
packed big-endian: 16+16 bits of block-size bounds, 24+24 bits of
frame-size bounds, then a 64-bit group holding 20 bits of sample rate,
3 bits of channel count minus one, 5 bits of bits-per-sample minus one and
36 bits of total samples, then 16 MD5 bytes. -/
structure StreamInfo where
  blockSizeMin : Nat
  blockSizeMax : Nat
  frameSizeMin : Nat
  frameSizeMax : Nat
  sampleRate : Nat
  nChannels : Nat
  bitsPerSample : Nat
  nSamples : Nat
  md5sum : List Nat
  deriving DecidableEq

/-- Modelled from the spec: decoding of the StreamInfo body bytes (spec 3
and 4.3); the source parser for this body is not under src/. -/
def parseStreamInfoBody (b : List Nat) : StreamInfo :=
  let v := beVal ((b.drop 10).take 8)
  { blockSizeMin := beVal (b.take 2)
    blockSizeMax := beVal ((b.drop 2).take 2)
    frameSizeMin := beVal ((b.drop 4).take 3)
    frameSizeMax := beVal ((b.drop 7).take 3)
    sampleRate := v >>> 44
    nChannels := ((v >>> 41) &&& 0x7) + 1
    bitsPerSample := ((v >>> 36) &&& 0x1F) + 1
    nSamples := v &&& (2 ^ 36 - 1)
    md5sum := (b.drop 18).take 16 }

/-- A metadata block as exposed by `Parse`: the header fields (`is_last`,
7-bit type, 24-bit length) and the body. Modelled from the spec: the
`meta.Parse` block framework is not under src/; bodies are carried as
their raw `length` bytes (the per-type body decoders apply to these bytes
and agree whenever the bytes agree, which suffices for block identity). -/
structure RawBlock where
  isLast : Bool
  typ : Nat
  length : Nat
  body : List Nat
  deriving DecidableEq

/-- The stream constructed by `flac.Parse`: the StreamInfo plus the
remaining metadata blocks. -/
structure StreamMeta where
  info : StreamInfo
  blocks : List RawBlock
  deriving DecidableEq

/-- The metadata block loop of `flac.Parse` (src/flac.go, lines 185-198),
modelled from the spec for the `meta.Parse` internals: read the 4-byte
block header (1 bit `is_last`, 7 bits type, 24 bits length), then the body
bytes, until the block marked last. `fuel` bounds the recursion; it is
chosen above the remaining byte count and each iteration consumes at least
four bytes, so the fuel-0 arm is unreachable. -/
def parseBlocksLoop : Nat → List Nat → Except GoError (List RawBlock)
  | 0, _ => .error .unexpectedEOF
  | fuel + 1, data =>
    match readBytes 4 data with
    | none => .error .unexpectedEOF
    | some (hdr, d1) =>
      match hdr with
      | [b0, b1, b2, b3] =>
        let length := (b1 <<< 16) ||| (b2 <<< 8) ||| b3
        match readBytes length d1 with
        | none => .error .unexpectedEOF
        | some (body, d2) =>
          let blk : RawBlock := ⟨b0 &&& 0x80 ≠ 0, b0 &&& 0x7F, length, body⟩
          if b0 &&& 0x80 ≠ 0 then .ok [blk]
          else
            match parseBlocksLoop fuel d2 with
            | .error e => .error e
            | .ok blks => .ok (blk :: blks)
      | _ => .error .unexpectedEOF

/-- The continuation of `Stream.parseStreamInfo` after the signature bytes
are in hand (src/flac.go, lines 128-145) followed by the block loop of
`flac.Parse`: the signature must equal `"fLaC"`, the first block must be a
StreamInfo block (the type assertion on the parsed body), and the
remaining blocks are parsed until the last. -/
def parseAfterSignature (buf data : List Nat) : Except GoError StreamMeta :=
  if buf ≠ flacSignature then .error .signatureMismatch
  else
    match readBytes 4 data with
    | none => .error .unexpectedEOF
    | some (hdr, d1) =>
      match hdr with
      | [b0, b1, b2, b3] =>
        let length := (b1 <<< 16) ||| (b2 <<< 8) ||| b3
        if b0 &&& 0x7F ≠ 0 then .error .notStreamInfo
        else if length < 34 then .error .unexpectedEOF
        else
          match readBytes length d1 with
          | none => .error .unexpectedEOF
          | some (body, d2) =>
            if b0 &&& 0x80 ≠ 0 then .ok ⟨parseStreamInfoBody body, []⟩
            else
              match parseBlocksLoop (d2.length + 1) d2 with
              | .error e => .error e
              | .ok blks => .ok ⟨parseStreamInfoBody body, blks⟩
      | _ => .error .unexpectedEOF

/-- Embeds `flac.Parse` of src/flac.go (lines 175-201), whose signature handling
is `Stream.parseStreamInfo` (lines 108-145): read 4 signature bytes; if
the first three are `"ID3"`, skip the ID3v2 prelude with `skipID3v2` and
read the 4 signature bytes again; then parse the StreamInfo block and the
remaining metadata blocks. -/
def Parse (data : List Nat) : Except GoError StreamMeta :=
  match readBytes 4 data with
  | none => .error .eof
  | some (buf, d1) =>
    if buf.take 3 = id3Signature then
      match skipID3v2 d1 with
      | .error e => .error e
      | .ok d2 =>
        match readBytes 4 d2 with
        | none => .error .eof
        | some (buf2, d3) => parseAfterSignature buf2 d3
    else parseAfterSignature buf d1

end stream

end Flac

namespace Flac

/-- C2: decoding the bytes produced by `utf8.Encode (2^31)` yields 0, not
`2^31`: the 7-byte arm of `Encode` writes a leading byte `0x00` (the source
sets `bits = 0` where its comment calls for `11111110`), which `Decode`
reads as a complete 1-byte encoding of 0. `2^31` lies inside the claimed
range `0 ≤ v < 2^36`, so `decode(encode v) = v` fails on the code. -/
theorem c2_utf8_round_trip_fails :
    utf8.Decode (utf8.Encode (2 ^ 31)) = .ok (0, [0x82, 0x80, 0x80, 0x80, 0x80, 0x80])
      ∧ (2 ^ 31 : Nat) < 2 ^ 36 ∧ (0 : Nat) ≠ 2 ^ 31 := by
  refine ⟨rfl, by decide, by decide⟩

/-- C1: the byte sequence `FE 82 80 80 80 80 80` is accepted by
`utf8.Decode` as the frame/sample number `2^31` (so a stream containing it
parses), but re-serializing the decoded number with `utf8.Encode` produces
different bytes — the leading byte becomes `0x00` instead of `0xFE` — so
re-encoding the parsed stream is not byte-identical to the original. -/
theorem c1_reencode_not_byte_identical :
    utf8.Decode [0xFE, 0x82, 0x80, 0x80, 0x80, 0x80, 0x80] = .ok (2 ^ 31, [])
      ∧ utf8.Encode (2 ^ 31) ≠ [0xFE, 0x82, 0x80, 0x80, 0x80, 0x80, 0x80] := by
  refine ⟨rfl, by decide⟩

/-- The wrap `wrap32` is the identity on values already in `int32` range. -/
theorem wrap32_eq_self {a : Int} (h1 : -(2 ^ 31) ≤ a) (h2 : a < 2 ^ 31) : wrap32 a = a := by
  unfold wrap32; omega

/-- Wrapping an already-wrapped left summand does not change the result. -/
theorem wrap32_add_left (a b : Int) : wrap32 (wrap32 a + b) = wrap32 (a + b) := by
  unfold wrap32; omega

/-- Wrapping a wrapped subtrahend does not change the result. -/
theorem wrap32_sub_right (a b : Int) : wrap32 (a - wrap32 b) = wrap32 (a - b) := by
  unfold wrap32; omega

/-- Wrapping a wrapped right summand does not change the result. -/
theorem wrap32_add_right (a b : Int) : wrap32 (a + wrap32 b) = wrap32 (a + b) := by
  unfold wrap32; omega

/-- Element identity for the LeftSide round trip. -/
theorem leftSide_elem (l r : Int) (h1 : -(2 ^ 31) ≤ r) (h2 : r < 2 ^ 31) :
    wrap32 (l - frame.sideDecorr l r) = r := by
  unfold frame.sideDecorr
  rw [wrap32_sub_right]
  have : l - (l - r) = r := by ring
  rw [this, wrap32_eq_self h1 h2]

/-- Element identity for the SideRight round trip. -/
theorem sideRight_elem (l r : Int) (h1 : -(2 ^ 31) ≤ l) (h2 : l < 2 ^ 31) :
    wrap32 (r + frame.sideDecorr l r) = l := by
  unfold frame.sideDecorr
  rw [wrap32_add_right]
  have : r + (l - r) = l := by ring
  rw [this, wrap32_eq_self h1 h2]

/-- Element identity for the MidSide round trip, valid when both samples
stay below `2^30` in magnitude so that `m + s` cannot overflow `int32`. -/
theorem midSide_elem (l r : Int)
    (hl1 : -(2 ^ 30) ≤ l) (hl2 : l < 2 ^ 30) (hr1 : -(2 ^ 30) ≤ r) (hr2 : r < 2 ^ 30) :
    frame.midCorrL (frame.midDecorr l r) (frame.sideDecorr l r) = l
      ∧ frame.midCorrR (frame.midDecorr l r) (frame.sideDecorr l r) = r := by
  unfold frame.midCorrL frame.midCorrR frame.midDecorr frame.sideDecorr
  have hsh : (l + r) >>> (1 : Nat) = (l + r) / 2 := by
    rw [Int.shiftRight_eq_div_pow]; norm_num
  have hm : wrap32 ((l + r) >>> (1 : Nat)) = (l + r) / 2 := by
    rw [hsh]; exact wrap32_eq_self (by omega) (by omega)
  have hs : wrap32 (l - r) = l - r := wrap32_eq_self (by omega) (by omega)
  rw [hm, hs]
  have hm2 : wrap32 ((l + r) / 2 * 2) = (l + r) / 2 * 2 :=
    wrap32_eq_self (by omega) (by omega)
  rw [hm2]
  have hfoldL : (l + r) / 2 * 2 + (l - r) % 2 + (l - r) = 2 * l := by omega
  have hfoldR : (l + r) / 2 * 2 + (l - r) % 2 - (l - r) = 2 * r := by omega
  rw [hfoldL, hfoldR,
    wrap32_eq_self (a := 2 * l) (by omega) (by omega),
    wrap32_eq_self (a := 2 * r) (by omega) (by omega),
    Int.mul_tdiv_cancel_left l (by norm_num), Int.mul_tdiv_cancel_left r (by norm_num)]
  exact ⟨rfl, rfl⟩

/-- LeftSide round trip over whole buffers. -/
theorem leftSide_round_trip (a b : List Int) (hlen : a.length = b.length)
    (hb : ∀ x ∈ b, -(2 ^ 31 : Int) ≤ x ∧ x < 2 ^ 31) :
    List.zipWith (fun l s => wrap32 (l - s)) a (List.zipWith frame.sideDecorr a b) = b := by
  induction a generalizing b with
  | nil => cases b with
    | nil => rfl
    | cons r b => simp at hlen
  | cons l a ih =>
    cases b with
    | nil => simp at hlen
    | cons r b =>
      simp only [List.zipWith, List.cons.injEq]
      refine ⟨leftSide_elem l r (hb r (by simp)).1 (hb r (by simp)).2, ?_⟩
      exact ih b (by simpa using hlen) (fun x hx => hb x (by simp [hx]))

/-- SideRight round trip over whole buffers. -/
theorem sideRight_round_trip (a b : List Int) (hlen : a.length = b.length)
    (ha : ∀ x ∈ a, -(2 ^ 31 : Int) ≤ x ∧ x < 2 ^ 31) :
    List.zipWith (fun s r => wrap32 (r + s)) (List.zipWith frame.sideDecorr a b) b = a := by
  induction a generalizing b with
  | nil => cases b with
    | nil => rfl
    | cons r b => simp at hlen
  | cons l a ih =>
    cases b with
    | nil => simp at hlen
    | cons r b =>
      simp only [List.zipWith, List.cons.injEq]
      refine ⟨sideRight_elem l r (ha l (by simp)).1 (ha l (by simp)).2, ?_⟩
      exact ih b (by simpa using hlen) (fun x hx => ha x (by simp [hx]))

/-- MidSide round trip over whole buffers, left channel. -/
theorem midSideL_round_trip (a b : List Int) (hlen : a.length = b.length)
    (ha : ∀ x ∈ a, -(2 ^ 30 : Int) ≤ x ∧ x < 2 ^ 30)
    (hb : ∀ x ∈ b, -(2 ^ 30 : Int) ≤ x ∧ x < 2 ^ 30) :
    List.zipWith frame.midCorrL (List.zipWith frame.midDecorr a b)
      (List.zipWith frame.sideDecorr a b) = a := by
  induction a generalizing b with
  | nil => cases b with
    | nil => rfl
    | cons r b => simp at hlen
  | cons l a ih =>
    cases b with
    | nil => simp at hlen
    | cons r b =>
      simp only [List.zipWith, List.cons.injEq]
      refine ⟨(midSide_elem l r (ha l (by simp)).1 (ha l (by simp)).2
        (hb r (by simp)).1 (hb r (by simp)).2).1, ?_⟩
      exact ih b (by simpa using hlen) (fun x hx => ha x (by simp [hx]))
        (fun x hx => hb x (by simp [hx]))

/-- MidSide round trip over whole buffers, side channel. -/
theorem midSideR_round_trip (a b : List Int) (hlen : a.length = b.length)
    (ha : ∀ x ∈ a, -(2 ^ 30 : Int) ≤ x ∧ x < 2 ^ 30)
    (hb : ∀ x ∈ b, -(2 ^ 30 : Int) ≤ x ∧ x < 2 ^ 30) :
    List.zipWith frame.midCorrR (List.zipWith frame.midDecorr a b)
      (List.zipWith frame.sideDecorr a b) = b := by
  induction a generalizing b with
  | nil => cases b with
    | nil => rfl
    | cons r b => simp at hlen
  | cons l a ih =>
    cases b with
    | nil => simp at hlen
    | cons r b =>
      simp only [List.zipWith, List.cons.injEq]
      refine ⟨(midSide_elem l r (ha l (by simp)).1 (ha l (by simp)).2
        (hb r (by simp)).1 (hb r (by simp)).2).2, ?_⟩
      exact ih b (by simpa using hlen) (fun x hx => ha x (by simp [hx]))
        (fun x hx => hb x (by simp [hx]))

/-- C6 (amended): applying `Frame.Decorrelate` and then `Frame.Correlate`
returns both subframe sample buffers to their original contents, for equal
length buffers, across the three decorrelated channel assignments —
unconditionally over the `int32` range for LeftSide and SideRight, and for
MidSide whenever every sample of both buffers lies in `[-2^30, 2^30)`
(the bound `corrBound`). -/
theorem c6_correlate_decorrelate_round_trip (ch : frame.Channels)
    (hch : ch = .leftSide ∨ ch = .sideRight ∨ ch = .midSide)
    (a b : List Int) (hlen : a.length = b.length)
    (ha : ∀ x ∈ a, -frame.corrBound ch ≤ x ∧ x < frame.corrBound ch)
    (hb : ∀ x ∈ b, -frame.corrBound ch ≤ x ∧ x < frame.corrBound ch) :
    frame.Correlate ch (frame.Decorrelate ch a b).1 (frame.Decorrelate ch a b).2 = (a, b) := by
  rcases hch with h | h | h <;> subst h
  · show (a, List.zipWith (fun l s => wrap32 (l - s)) a (List.zipWith frame.sideDecorr a b)) = (a, b)
    rw [leftSide_round_trip a b hlen (fun x hx => hb x hx)]
  · show (List.zipWith (fun s r => wrap32 (r + s)) (List.zipWith frame.sideDecorr a b) b, b) = (a, b)
    rw [sideRight_round_trip a b hlen (fun x hx => ha x hx)]
  · show (List.zipWith frame.midCorrL (List.zipWith frame.midDecorr a b)
        (List.zipWith frame.sideDecorr a b),
      List.zipWith frame.midCorrR (List.zipWith frame.midDecorr a b)
        (List.zipWith frame.sideDecorr a b)) = (a, b)
    rw [midSideL_round_trip a b hlen ha hb, midSideR_round_trip a b hlen ha hb]

/-- C6 witness: the round trip at a concrete MidSide input. -/
theorem c6_round_trip_witness :
    frame.Correlate .midSide (frame.Decorrelate .midSide [5, -3] [7, 4]).1
      (frame.Decorrelate .midSide [5, -3] [7, 4]).2 = ([5, -3], [7, 4]) :=
  c6_correlate_decorrelate_round_trip .midSide (by tauto) [5, -3] [7, 4] rfl
    (by decide) (by decide)

/-- C6 counterexample: with MidSide buffers `A = [2^30]`, `B = [0]`,
decorrelation followed by correlation yields `A = [-2^30]` — the addition
`m + s` overflows `int32` — so the round trip is not the identity on all
pairs of equal-length `int32` buffers. -/
theorem c6_midside_overflow_counterexample :
    frame.Correlate .midSide (frame.Decorrelate .midSide [2 ^ 30] [0]).1
      (frame.Decorrelate .midSide [2 ^ 30] [0]).2 = ([-(2 ^ 30)], [0])
    ∧ ([-(2 ^ 30)], ([0] : List Int)) ≠ ([2 ^ 30], [0]) := by
  refine ⟨rfl, by decide⟩

/-- The length of the residual list equals the length of the walked
suffix. -/
theorem residCore_length (coeffs : List Int) (shift : Nat) (rest : List Int) :
    ∀ prevRev, (frame.residCore coeffs shift prevRev rest).length = rest.length := by
  induction rest with
  | nil => intro prevRev; rfl
  | cons s rest ih => intro prevRev; simp [frame.residCore, ih]

/-- Replaying the LPC recurrence on the residuals produced by subtraction
rebuilds exactly the original suffix: the prediction at each step depends
only on the already-rebuilt prefix, which coincides with the original one,
and `wrap32 (wrap32 (s - p) + p) = s` for `s` in `int32` range. -/
theorem lpcRun_residCore (coeffs : List Int) (shift : Nat) (rest : List Int) :
    ∀ prevRev, (∀ x ∈ rest, -(2 ^ 31 : Int) ≤ x ∧ x < 2 ^ 31) →
      frame.lpcRun coeffs shift prevRev (frame.residCore coeffs shift prevRev rest)
        = rest.reverse ++ prevRev := by
  induction rest with
  | nil => intro prevRev _; rfl
  | cons s rest ih =>
    intro prevRev h
    have hsr := h s (by simp)
    have helem : wrap32 (wrap32 (s - frame.lpcPredict coeffs prevRev shift)
        + frame.lpcPredict coeffs prevRev shift) = s := by
      rw [wrap32_add_left]
      have : s - frame.lpcPredict coeffs prevRev shift + frame.lpcPredict coeffs prevRev shift = s := by
        ring
      rw [this, wrap32_eq_self hsr.1 hsr.2]
    simp only [frame.residCore, frame.lpcRun, helem]
    rw [ih (s :: prevRev) (fun x hx => h x (by simp [hx]))]
    simp

/-- The table `FixedCoeffs` has exactly `order` coefficients for orders 0 through 4. -/
theorem fixedCoeffs_length (ord : Nat) (h : ord ≤ 4) : (frame.FixedCoeffs ord).length = ord := by
  interval_cases ord <;> rfl

/-- C7: for every fixed prediction order 0..4 and any `int32` sample buffer
whose length is taken as `NSamples`, computing residuals by subtraction
with `getLPCResiduals` (using `FixedCoeffs` and shift 0) and re-applying
the recurrence with `decodeLPC` on the warm-up samples followed by those
residuals recovers the original samples exactly. -/
theorem c7_fixed_lpc_round_trip (ord : Nat) (samples : List Int) (hord : ord ≤ 4)
    (hs : ∀ x ∈ samples, -(2 ^ 31 : Int) ≤ x ∧ x < 2 ^ 31) :
    ∃ res, frame.getLPCResiduals (frame.FixedCoeffs ord) 0 ord samples.length samples = .ok res
      ∧ frame.decodeLPC (frame.FixedCoeffs ord) 0 ord samples.length (samples.take ord ++ res)
          = .ok samples := by
  have hlen := fixedCoeffs_length ord hord
  set res := frame.residCore (frame.FixedCoeffs ord) 0 (samples.take ord).reverse
    (samples.drop ord) with hres
  have hreslen : res.length = (samples.drop ord).length := residCore_length _ _ _ _
  have htakelen : (samples.take ord).length = min ord samples.length := List.length_take ord samples
  have hlen2 : samples.length = (samples.take ord ++ res).length := by
    rw [List.length_append, hreslen, List.length_drop]; omega
  refine ⟨res, ?_, ?_⟩
  · unfold frame.getLPCResiduals
    rw [if_neg (not_ne_iff.mpr hlen), if_neg (by norm_num)]
    rw [if_neg (not_ne_iff.mpr rfl)]
    rw [hres]
    rfl
  · unfold frame.decodeLPC
    rw [if_neg (not_ne_iff.mpr hlen), if_neg (by norm_num), if_neg (not_ne_iff.mpr hlen2)]
    simp only [Int.toNat_zero]
    rcases Nat.le_total samples.length ord with hord' | hord'
    · have hdrop : samples.drop ord = [] := List.drop_eq_nil_of_le hord'
      have htake : samples.take ord = samples := List.take_of_length_le hord'
      have hres0 : res = [] := by rw [hres, hdrop]; rfl
      have hT : samples.take ord ++ res = samples := by rw [hres0, List.append_nil, htake]
      rw [hT, hdrop]
      show Except.ok (frame.lpcRun (frame.FixedCoeffs ord) 0 (samples.take ord).reverse []).reverse
        = Except.ok samples
      rw [show frame.lpcRun (frame.FixedCoeffs ord) 0 (samples.take ord).reverse []
          = (samples.take ord).reverse from rfl,
        List.reverse_reverse, htake]
    · have htl : (samples.take ord).length = ord := by omega
      rw [List.take_left' htl, List.drop_left' htl, hres]
      rw [lpcRun_residCore (frame.FixedCoeffs ord) 0 (samples.drop ord) (samples.take ord).reverse
        (fun x hx => hs x (List.drop_subset ord samples hx))]
      rw [← List.reverse_append, List.take_append_drop, List.reverse_reverse]

/-- C4: `parseSeekTable` accepts a two-point table whose non-placeholder
sample numbers are 5 followed by 3 — not strictly increasing — because the
`prev` variable the loop compares against is never updated from its initial
value 0; the claim (and the source's own comment, lines 52-54) requires an
error for such a table. -/
theorem c4_nonmonotonic_seek_table_accepted :
    meta.parseSeekTable 36
      ([0, 0, 0, 0, 0, 0, 0, 5] ++ List.replicate 10 0
        ++ [0, 0, 0, 0, 0, 0, 0, 3] ++ List.replicate 10 0)
      = .ok [⟨5, 0, 0⟩, ⟨3, 0, 0⟩]
    ∧ (3 : Nat) < 5 := by
  refine ⟨rfl, by decide⟩

/-- C3: on a compact-disc cue sheet, `parseTrack` rejects a non-lead-out
track numbered 1 — a number the claim says must be accepted — with the
lead-out error `expected 170, got 1`, because the `else if` at
src/meta/cuesheet.go line 88 is attached to the non-lead-out test. The
track here is at index 0 of 2, so it is not the lead-out, and its offset 0
is divisible by 588. -/
theorem c3_valid_cd_track_rejected :
    meta.parseTrack true 0 2 [] [0, 0, 0, 0, 0, 0, 0, 0, 1]
      = .error (.invalidLeadOutCDTrackNum 1)
    ∧ (1 : Nat) ≤ 99 ∧ (0 : Nat) ≠ 2 - 1 := by
  refine ⟨rfl, by decide, by decide⟩

/-- A successful Rice residual loop returns exactly one residual per
iteration. -/
theorem riceResLoop_length (k : Nat) :
    ∀ (cnt : Nat) (br : bits.Reader) (vals : List Int) (br' : bits.Reader),
      frame.riceResLoop br k cnt = .ok (vals, br') → vals.length = cnt := by
  intro cnt
  induction cnt with
  | zero =>
    intro br vals br' h
    simp only [frame.riceResLoop, Except.ok.injEq, Prod.mk.injEq] at h
    rw [← h.1]; rfl
  | succ j ih =>
    intro br vals br' h
    simp only [frame.riceResLoop] at h
    split at h
    · exact absurd h (by simp)
    · split at h
      · exact absurd h (by simp)
      · rename_i heq
        simp only [Except.ok.injEq, Prod.mk.injEq] at h
        rw [← h.1]
        simp [ih _ _ _ heq]

/-- A successful escaped-partition loop returns exactly one sample per
iteration. -/
theorem escLoop_length (n : Nat) :
    ∀ (cnt : Nat) (br : bits.Reader) (vals : List Int) (br' : bits.Reader),
      frame.escLoop br n cnt = .ok (vals, br') → vals.length = cnt := by
  intro cnt
  induction cnt with
  | zero =>
    intro br vals br' h
    simp only [frame.escLoop, Except.ok.injEq, Prod.mk.injEq] at h
    rw [← h.1]; rfl
  | succ j ih =>
    intro br vals br' h
    simp only [frame.escLoop] at h
    split at h
    · exact absurd h (by simp)
    · split at h
      · exact absurd h (by simp)
      · rename_i heq
        simp only [Except.ok.injEq, Prod.mk.injEq] at h
        rw [← h.1]
        simp [ih _ _ _ heq]

/-- A successful warm-up loop returns exactly `order` samples. -/
theorem warmLoop_length (bps : Nat) :
    ∀ (cnt : Nat) (br : bits.Reader) (vals : List Int) (br' : bits.Reader),
      frame.warmLoop br bps cnt = .ok (vals, br') → vals.length = cnt := by
  intro cnt
  induction cnt with
  | zero =>
    intro br vals br' h
    simp only [frame.warmLoop, Except.ok.injEq, Prod.mk.injEq] at h
    rw [← h.1]; rfl
  | succ j ih =>
    intro br vals br' h
    simp only [frame.warmLoop] at h
    split at h
    · exact absurd h (by simp)
    · split at h
      · exact absurd h (by simp)
      · rename_i heq
        simp only [Except.ok.injEq, Prod.mk.injEq] at h
        rw [← h.1]
        simp [ih _ _ _ heq]

/-- A successful partition loop appends exactly the per-partition counts'
worth of samples (negative counts contributing zero). -/
theorem ricePartLoop_samples_length (paramSize ns ord po : Nat) :
    ∀ (k i : Nat) (br : bits.Reader) (parts : List frame.RicePartition)
      (samples : List Int) (br' : bits.Reader),
      frame.ricePartLoop paramSize ns ord po br i k = .ok (parts, samples, br') →
      samples.length = frame.ricePartTotal ns ord po i k := by
  intro k
  induction k with
  | zero =>
    intro i br parts samples br' h
    simp only [frame.ricePartLoop, Except.ok.injEq, Prod.mk.injEq] at h
    rw [← h.2.1]; rfl
  | succ j ih =>
    intro i br parts samples br' h
    simp only [frame.ricePartLoop] at h
    split at h
    · exact absurd h (by simp)
    · split at h
      · -- escaped partition: the 5-bit size read, the escape loop, then
        -- the recursive call
        split at h
        · exact absurd h (by simp)
        · split at h
          · exact absurd h (by simp)
          · rename_i hesc
            split at h
            · exact absurd h (by simp)
            · rename_i hrec
              simp only [Except.ok.injEq, Prod.mk.injEq] at h
              rw [← h.2.1]
              simp only [frame.ricePartTotal, List.length_append,
                escLoop_length _ _ _ _ _ hesc, ih _ _ _ _ _ hrec]
      · -- Rice-coded partition: the residual loop, then the recursive call
        split at h
        · exact absurd h (by simp)
        · rename_i hres
          split at h
          · exact absurd h (by simp)
          · rename_i hrec
            simp only [Except.ok.injEq, Prod.mk.injEq] at h
            rw [← h.2.1]
            simp only [frame.ricePartTotal, List.length_append,
              riceResLoop_length _ _ _ _ _ hres, ih _ _ _ _ _ hrec]

/-- A successful `decodeLPC` requires the declared sample count to equal
the sample list length (the third check of the source function). -/
theorem decodeLPC_ok_ns (coeffs : List Int) (shift : Int) (ord ns : Nat)
    (samples : List Int) (out : List Int)
    (h : frame.decodeLPC coeffs shift ord ns samples = .ok out) : ns = samples.length := by
  unfold frame.decodeLPC at h
  split at h
  · exact absurd h (by simp)
  · split at h
    · exact absurd h (by simp)
    · split at h
      · exact absurd h (by simp)
      · rename_i hns
        exact Decidable.not_not.mp hns

/-- For partition index at least 1 (and nonzero partition order), every
partition's count is exactly `ns / 2^po`. -/
theorem ricePartTotal_tail (ns ord po : Nat) (hpo : po ≠ 0) :
    ∀ (k i : Nat), i ≠ 0 →
      frame.ricePartTotal ns ord po i k = k * (ns / 2 ^ po) := by
  intro k
  induction k with
  | zero => intro i _; simp [frame.ricePartTotal]
  | succ j ih =>
    intro i hi
    simp only [frame.ricePartTotal, frame.ricePartNSamples, if_neg hpo, if_pos hi,
      Int.toNat_natCast]
    rw [ih (i + 1) (by omega)]
    ring

/-- Arithmetic consequence of the count bookkeeping: if the decoded sample
total matches the block size and partition 0's count is nonnegative, the
block size is divisible by the partition count. -/
theorem ricePartTotal_arith (ns ord po : Nat)
    (h : ns = ord + frame.ricePartTotal ns ord po 0 (2 ^ po))
    (hord : ord ≤ ns / 2 ^ po) : ns % 2 ^ po = 0 := by
  rcases Nat.eq_zero_or_pos po with hpo | hpo
  · subst hpo; omega
  · have hN : (0 : Nat) < 2 ^ po := Nat.pos_pow_of_pos po (by norm_num)
    have hsplit : 2 ^ po = (2 ^ po - 1) + 1 := by omega
    rw [hsplit] at h
    simp only [frame.ricePartTotal, frame.ricePartNSamples, if_neg (by omega : po ≠ 0),
      if_neg (by simp : ¬(0 : Nat) ≠ 0)] at h
    rw [ricePartTotal_tail ns ord po (by omega) (2 ^ po - 1) 1 (by omega)] at h
    have h0 : (((ns / 2 ^ po : Nat) : Int) - ord).toNat = ns / 2 ^ po - ord := by omega
    rw [h0] at h
    set q := ns / 2 ^ po with hq
    have hns : ns = 2 ^ po * q := by
      have hstep : ord + (q - ord + (2 ^ po - 1) * q) = q + (2 ^ po - 1) * q := by omega
      rw [h, hstep]
      have : q + (2 ^ po - 1) * q = (1 + (2 ^ po - 1)) * q := by ring
      rw [this]
      congr 1
      omega
    rw [hns]
    exact Nat.mul_mod_right (2 ^ po) q

/-- C5 (amended): the residual decoder performs no partition-arithmetic
checks of its own; instead, whenever the full fixed-subframe decode
(residuals then `decodeLPC`) succeeds and partition 0's count
`NSamples / 2^partOrder - Order` is nonnegative, the block size is
necessarily divisible by `2^partOrder` — a divisibility violation with a
nonnegative partition-0 count surfaces as `decodeLPC`'s sample-count
mismatch error, not as an error of `decodeRicePart`. -/
theorem c5_partition_arithmetic (bps ns ord : Nat) (br : bits.Reader)
    (out : List Int × frame.RiceSubframe × bits.Reader)
    (h : frame.decodeFixed bps ns ord br = .ok out)
    (hord : ord ≤ ns / 2 ^ out.2.1.partOrder) :
    ns % 2 ^ out.2.1.partOrder = 0 := by
  unfold frame.decodeFixed at h
  split at h
  · exact absurd h (by simp)
  · rename_i warm br1 hwarm
    split at h
    · exact absurd h (by simp)
    · rename_i rice res br2 hres
      split at h
      · exact absurd h (by simp)
      · rename_i final hlpc
        have hout : (final, rice, br2) = out := by simpa using h
        have hns : ns = warm.length + res.length := by
          have := decodeLPC_ok_ns _ _ _ _ _ _ hlpc
          simpa using this
        have hwl : warm.length = ord := warmLoop_length _ _ _ _ _ hwarm
        unfold frame.decodeResiduals at hres
        split at hres
        · exact absurd hres (by simp)
        · rename_i method brm hread
          have hrice : ∃ psz, frame.decodeRicePart ns ord brm psz = .ok (rice, res, br2) := by
            split at hres
            · exact ⟨4, hres⟩
            · split at hres
              · exact ⟨5, hres⟩
              · exact absurd hres (by simp)
          obtain ⟨psz, hrp⟩ := hrice
          unfold frame.decodeRicePart at hrp
          split at hrp
          · exact absurd hrp (by simp)
          · rename_i po brp hread4
            split at hrp
            · exact absurd hrp (by simp)
            · rename_i parts samples brq hloop
              simp only [Except.ok.injEq, Prod.mk.injEq] at hrp
              have hpo : rice.partOrder = po := by rw [← hrp.1]
              have hsamples : res = samples := hrp.2.1.symm
              have hlen := ricePartLoop_samples_length psz ns ord po _ _ _ _ _ _ hloop
              rw [← hout] at hord ⊢
              simp only [hpo] at hord ⊢
              have htot : ns = ord + samples.length := by
                rw [hns, hwl, hsamples]
              rw [hlen] at htot
              exact ricePartTotal_arith ns ord po htot hord

/-- C5 counterexample: a fixed subframe of order 4 with block size 7 and
partition order 1 — block size not divisible by `nparts = 2` — decodes
successfully end to end (partition 0's count is `7/2 - 4 = -1`, running
zero times, and the sample total still matches), so residual decoding does
not fail on this partition-arithmetic violation as the claim requires. -/
theorem c5_no_partition_check_counterexample :
    frame.decodeFixed 4 7 4 ⟨0, 0, [0, 0, 4, 3, 128]⟩
      = .ok ([0, 0, 0, 0, 0, 0, 0], ⟨1, [⟨0, 0⟩, ⟨0, 0⟩]⟩, ⟨0, 7, []⟩)
    ∧ (7 : Nat) % 2 ^ 1 ≠ 0 :=
  ⟨rfl, by decide⟩

/-- C5 witness: at block size 8, order 4, partition order 1 the decode
succeeds and the theorem yields divisibility. -/
theorem c5_partition_arithmetic_witness : (8 : Nat) % 2 ^ (1 : Nat) = 0 :=
  c5_partition_arithmetic 4 8 4 ⟨0, 0, [0, 0, 4, 3, 192]⟩
    ([0, 0, 0, 0, 0, 0, 0, 0], ⟨1, [⟨0, 0⟩, ⟨0, 0⟩]⟩, ⟨0, 6, []⟩) rfl (by decide)

/-- The search loop either returns its initial `prev` or some visited
point whose (wrapped) end sample lies strictly before the target. -/
theorem searchLoop_cases (target : Nat) :
    ∀ (pts : List meta.SeekPoint) (prev : meta.SeekPoint),
      stream.searchLoop prev target pts = prev
      ∨ (stream.searchLoop prev target pts ∈ pts
          ∧ ((stream.searchLoop prev target pts).sampleNum
              + (stream.searchLoop prev target pts).nSamples) % 2 ^ 64 < target) := by
  intro pts
  induction pts with
  | nil => intro prev; left; rfl
  | cons p rest ih =>
    intro prev
    simp only [stream.searchLoop]
    split
    · left; rfl
    · rename_i hmiss
      rcases ih p with h | h
      · right
        refine ⟨by simp [h], ?_⟩
        rw [h]; omega
      · right
        exact ⟨by simp [h.1], h.2⟩

/-- In a strictly-increasing offset list the head's offset is below every
later frame's offset. -/
theorem offsetsIncreasing_head_lt :
    ∀ (rest : List stream.FrameRec) (f : stream.FrameRec),
      stream.offsetsIncreasing (f :: rest) = true → ∀ g ∈ rest, f.offset < g.offset := by
  intro rest
  induction rest with
  | nil => intro f _ g hg; simp at hg
  | cons g rest ih =>
    intro f h g' hg'
    simp only [stream.offsetsIncreasing, Bool.and_eq_true, decide_eq_true_eq] at h
    rcases List.mem_cons.mp hg' with rfl | hmem
    · exact h.1
    · exact lt_trans h.1 (ih g (by simpa [stream.offsetsIncreasing] using h.2) g' hmem)

/-- Tails of strictly-increasing offset lists are strictly increasing. -/
theorem offsetsIncreasing_tail :
    ∀ (rest : List stream.FrameRec) (f : stream.FrameRec),
      stream.offsetsIncreasing (f :: rest) = true → stream.offsetsIncreasing rest = true := by
  intro rest f h
  cases rest with
  | nil => rfl
  | cons g rest =>
    simp only [stream.offsetsIncreasing, Bool.and_eq_true] at h
    exact h.2

/-- Seeking to a valid frame's byte offset positions the walk exactly at
that frame: `dropWhile` strips precisely the earlier frames. -/
theorem dropWhile_at_frame :
    ∀ (frames : List stream.FrameRec) (fr : stream.FrameRec),
      fr ∈ frames → stream.offsetsIncreasing frames = true →
      ∃ pre suf, frames = pre ++ fr :: suf
        ∧ frames.dropWhile (fun f => decide (f.offset < fr.offset)) = fr :: suf := by
  intro frames
  induction frames with
  | nil => intro fr h; simp at h
  | cons g rest ih =>
    intro fr hmem hsort
    rcases List.mem_cons.mp hmem with rfl | hmem'
    · exact ⟨[], rest, by simp, by simp [List.dropWhile_cons]⟩
    · have hlt : g.offset < fr.offset := offsetsIncreasing_head_lt rest g hsort fr hmem'
      obtain ⟨pre, suf, heq, hdrop⟩ := ih fr hmem' (offsetsIncreasing_tail rest g hsort)
      exact ⟨g :: pre, suf, by simp [heq], by simp [List.dropWhile_cons, hlt, hdrop]⟩

/-- Unpacking contiguity at a cons cell. -/
theorem framesContiguous_cons {f : stream.FrameRec} {rest : List stream.FrameRec} {s : Nat}
    (h : stream.framesContiguous (f :: rest) s = true) :
    f.sampleNumber = s ∧ stream.framesContiguous rest (s + f.blockSize) = true := by
  simpa [stream.framesContiguous] using h

/-- A suffix of a contiguous frame list is contiguous, starting after the
samples of the stripped prefix. -/
theorem framesContiguous_append :
    ∀ (pre suf : List stream.FrameRec) (s : Nat),
      stream.framesContiguous (pre ++ suf) s = true →
      stream.framesContiguous suf (s + stream.totalSamples pre) = true := by
  intro pre
  induction pre with
  | nil => intro suf s h; simpa [stream.totalSamples] using h
  | cons f pre ih =>
    intro suf s h
    rw [List.cons_append] at h
    obtain ⟨_, h2⟩ := framesContiguous_cons h
    have := ih suf (s + f.blockSize) h2
    rw [show s + stream.totalSamples (f :: pre) = s + f.blockSize + stream.totalSamples pre by
      simp [stream.totalSamples]; ring]
    exact this

/-- Each frame of a contiguous list ends no later than the list's total. -/
theorem frameEnd_le :
    ∀ (l : List stream.FrameRec) (s : Nat), stream.framesContiguous l s = true →
      ∀ f ∈ l, f.sampleNumber + f.blockSize ≤ s + stream.totalSamples l := by
  intro l
  induction l with
  | nil => intro s _ f hf; simp at hf
  | cons g rest ih =>
    intro s hc f hf
    obtain ⟨hg, hrest⟩ := framesContiguous_cons hc
    have htot : stream.totalSamples (g :: rest)
        = g.blockSize + stream.totalSamples rest := by simp [stream.totalSamples]
    rcases List.mem_cons.mp hf with rfl | hmem
    · omega
    · have := ih (s + g.blockSize) hrest f hmem
      omega

/-- The linear frame walk starting at sample `s0 ≤ target`, over contiguous
frames that cover the target, stops at the frame containing the target. -/
theorem seekWalk_finds :
    ∀ (fs : List stream.FrameRec) (s0 target : Nat),
      stream.framesContiguous fs s0 = true →
      s0 ≤ target → target < s0 + stream.totalSamples fs →
      s0 + stream.totalSamples fs < 2 ^ 64 →
      ∃ f ∈ fs, stream.seekWalk target fs = .ok f.sampleNumber
        ∧ f.sampleNumber ≤ target ∧ target < f.sampleNumber + f.blockSize := by
  intro fs
  induction fs with
  | nil =>
    intro s0 target _ h1 h2 _
    exfalso
    simp [stream.totalSamples] at h2
    omega
  | cons f rest ih =>
    intro s0 target hc h1 h2 hb
    obtain ⟨hf, hrest⟩ := framesContiguous_cons hc
    have htot : stream.totalSamples (f :: rest)
        = f.blockSize + stream.totalSamples rest := by simp [stream.totalSamples]
    have hmod : (f.sampleNumber + f.blockSize) % 2 ^ 64 = f.sampleNumber + f.blockSize := by
      apply Nat.mod_eq_of_lt
      omega
    by_cases hend : s0 + f.blockSize > target
    · refine ⟨f, by simp, ?_, by omega, by omega⟩
      simp only [stream.seekWalk]
      rw [if_pos (by omega)]
    · obtain ⟨g, hg, hwalk, hle, hlt⟩ := ih (s0 + f.blockSize) target hrest (by omega)
        (by omega) (by omega)
      refine ⟨g, by simp [hg], ?_, hle, hlt⟩
      simp only [stream.seekWalk]
      rw [if_neg (by omega)]
      exact hwalk

/-- C8: for a well-formed stream — contiguous frames from sample 0 with
strictly increasing offsets, every seek point referencing an actual frame,
the first point referencing the first frame (sample 0), and the declared
total `stream_info.n_samples` equal to the frames' total — `Stream.Seek`
on any `target` below the total returns the first sample number `s` of the
frame containing `target`, with `s ≤ target < s + block size`; and for any
declared total `n ≠ 0`, every `target ≥ n` fails with the out-of-range
error. -/
theorem c8_seek_correct (frames : List stream.FrameRec) (points : List meta.SeekPoint)
    (target : Nat)
    (hcontig : stream.framesContiguous frames 0 = true)
    (hsorted : stream.offsetsIncreasing frames = true)
    (hvalid : ∀ p ∈ points, stream.pointValid frames p)
    (hfirst : ∀ p0, points.head? = some p0 → p0.sampleNum = 0)
    (hne : points ≠ [])
    (htot : stream.totalSamples frames < 2 ^ 64)
    (hlt : target < stream.totalSamples frames) :
    (∃ f ∈ frames, stream.Seek (stream.totalSamples frames) points frames target
        = .ok f.sampleNumber
      ∧ f.sampleNumber ≤ target ∧ target < f.sampleNumber + f.blockSize)
    ∧ (∀ n t : Nat, n ≠ 0 → t ≥ n →
        stream.Seek n points frames t = .error (.seekOutOfRange t)) := by
  constructor
  · match points, hne with
    | p0 :: ps, _ =>
      have hmemle : stream.searchLoop p0 target (p0 :: ps) ∈ p0 :: ps
          ∧ (stream.searchLoop p0 target (p0 :: ps)).sampleNum ≤ target := by
        rcases searchLoop_cases target (p0 :: ps) p0 with h | h
        · constructor
          · rw [h]; exact List.mem_cons_self p0 ps
          · rw [h, hfirst p0 rfl]
            exact Nat.zero_le target
        · refine ⟨h.1, ?_⟩
          obtain ⟨fr, hfr, _, hsn, hns⟩ := hvalid _ h.1
          have hend := frameEnd_le frames 0 hcontig fr hfr
          have h2 := h.2
          omega
      obtain ⟨hmem, hsle⟩ := hmemle
      obtain ⟨fr, hfr, hoff, hsn, hns⟩ := hvalid _ hmem
      obtain ⟨pre, suf, hsplit, hdrop⟩ := dropWhile_at_frame frames fr hfr hsorted
      have hcsuf : stream.framesContiguous (fr :: suf) (stream.totalSamples pre) = true := by
        have := framesContiguous_append pre (fr :: suf) 0 (by rw [← hsplit]; exact hcontig)
        simpa using this
      have hfrs : fr.sampleNumber = stream.totalSamples pre := (framesContiguous_cons hcsuf).1
      have htotsplit : stream.totalSamples frames
          = stream.totalSamples pre + stream.totalSamples (fr :: suf) := by
        rw [hsplit]
        simp [stream.totalSamples]
      have hwalk := seekWalk_finds (fr :: suf) (stream.totalSamples pre) target hcsuf
        (by omega) (by omega) (by omega)
      obtain ⟨g, hg, hwok, hgle, hglt⟩ := hwalk
      refine ⟨g, ?_, ?_, hgle, hglt⟩
      · rw [hsplit]
        exact List.mem_append_right pre hg
      · simp only [stream.Seek, stream.searchFromStart]
        rw [if_neg (by omega), hoff, hdrop]
        exact hwok
  · intro n t hn ht
    unfold stream.Seek
    rw [if_pos ⟨hn, ht⟩]

/-- C8 witness: two contiguous frames of four samples each and a one-point
table; seeking sample 5 lands on the second frame (sample 4). -/
theorem c8_seek_correct_witness :
    (∃ f ∈ ([⟨0, 0, 4⟩, ⟨10, 4, 4⟩] : List stream.FrameRec),
        stream.Seek (stream.totalSamples [⟨0, 0, 4⟩, ⟨10, 4, 4⟩]) [⟨0, 0, 4⟩]
            [⟨0, 0, 4⟩, ⟨10, 4, 4⟩] 5 = .ok f.sampleNumber
          ∧ f.sampleNumber ≤ 5 ∧ 5 < f.sampleNumber + f.blockSize)
    ∧ (∀ n t : Nat, n ≠ 0 → t ≥ n →
        stream.Seek n [⟨0, 0, 4⟩] [⟨0, 0, 4⟩, ⟨10, 4, 4⟩] t = .error (.seekOutOfRange t)) :=
  c8_seek_correct [⟨0, 0, 4⟩, ⟨10, 4, 4⟩] [⟨0, 0, 4⟩] 5 (by decide) (by decide)
    (by
      intro p hp
      rw [List.mem_singleton] at hp
      subst hp
      exact ⟨⟨0, 0, 4⟩, by simp, rfl, rfl, rfl⟩)
    (by intro p0 hp; injection hp with h; rw [← h])
    (by decide) (by decide) (by decide)

/-- C10: with a reader that does not implement `io.ReadSeeker`,
`Stream.Seek` returns `ErrNoSeeker` exactly when an on-demand seek table
must first be built (`seekTable == nil` and `seekTableSize > 0`, the path
through `makeSeekTable`'s checked type assertion); in every other case it
reaches the unchecked assertion `stream.r.(io.ReadSeeker)` and panics. -/
theorem c10_seek_without_seeker (tableNil : Bool) (size : Int) :
    (stream.seekEntry false tableNil size = .errNoSeeker ↔ tableNil = true ∧ size > 0)
    ∧ (stream.seekEntry false tableNil size = .panicReadSeeker
        ↔ ¬(tableNil = true ∧ size > 0)) := by
  by_cases h : tableNil = true ∧ size > 0 <;>
    simp [stream.seekEntry, stream.makeSeekTableStep, h]

/-- C9: prepending a well-formed ID3v2 prelude — `"ID3"`, two further
header bytes, a 4-byte synchsafe size, and exactly that many prelude
bytes — leaves stream construction unchanged: the skip consumes exactly
the remaining two header bytes, the size bytes and the sized payload,
then the signature check retries at the byte that follows, so the
prepended stream parses to the very same result (same StreamInfo, same
blocks) as the un-prepended one, which starts with `"fLaC"`. The first of
the four signature bytes initially read is `"ID3"` plus the first ID3v2
version byte `v1`; `v2` and `flags` are the two bytes `skipID3v2`
discards. -/
theorem c9_id3v2_prelude_transparent (v1 v2 flags s0 s1 s2 s3 : Nat)
    (payload rest : List Nat)
    (hsize : payload.length = (s0 <<< 21) ||| (s1 <<< 14) ||| (s2 <<< 7) ||| s3)
    (hrest : rest.take 4 = stream.flacSignature) :
    stream.Parse ([0x49, 0x44, 0x33, v1, v2, flags, s0, s1, s2, s3] ++ (payload ++ rest))
      = stream.Parse rest := by
  obtain ⟨rest', rfl⟩ : ∃ rest', rest = 0x66 :: 0x4C :: 0x61 :: 0x43 :: rest' := by
    match rest, hrest with
    | a :: b :: c :: d :: t, h =>
      have h' : a = 0x66 ∧ b = 0x4C ∧ c = 0x61 ∧ d = 0x43 := by
        simpa [stream.flacSignature] using h
      exact ⟨t, by simp [h'.1, h'.2.1, h'.2.2.1, h'.2.2.2]⟩
  have hskip : stream.skipID3v2
      (v2 :: flags :: s0 :: s1 :: s2 :: s3
        :: (payload ++ (0x66 :: 0x4C :: 0x61 :: 0x43 :: rest')))
      = .ok (0x66 :: 0x4C :: 0x61 :: 0x43 :: rest') := by
    show (if (payload ++ (0x66 :: 0x4C :: 0x61 :: 0x43 :: rest')).length
          < ((s0 <<< 21) ||| (s1 <<< 14) ||| (s2 <<< 7) ||| s3)
        then (.error .eof : Except GoError (List Nat))
        else .ok ((payload ++ (0x66 :: 0x4C :: 0x61 :: 0x43 :: rest')).drop
          ((s0 <<< 21) ||| (s1 <<< 14) ||| (s2 <<< 7) ||| s3))) = _
    rw [if_neg (by rw [← hsize]; simp), ← hsize, List.drop_left]
  have hL : stream.Parse
      ([0x49, 0x44, 0x33, v1, v2, flags, s0, s1, s2, s3]
        ++ (payload ++ (0x66 :: 0x4C :: 0x61 :: 0x43 :: rest')))
      = stream.parseAfterSignature stream.flacSignature rest' := by
    show (match stream.skipID3v2
        (v2 :: flags :: s0 :: s1 :: s2 :: s3
          :: (payload ++ (0x66 :: 0x4C :: 0x61 :: 0x43 :: rest'))) with
      | .error e => (.error e : Except GoError stream.StreamMeta)
      | .ok d2 =>
        match readBytes 4 d2 with
        | none => .error .eof
        | some (buf2, d3) => stream.parseAfterSignature buf2 d3) = _
    rw [hskip]
    rfl
  exact hL.trans rfl

/-- C9 witness: a 2-byte ID3v2 payload prepended to a minimal FLAC stream
(signature, last-marked StreamInfo block of 34 zero bytes). -/
theorem c9_id3v2_prelude_transparent_witness :
    stream.Parse ([0x49, 0x44, 0x33, 4, 0, 0, 0, 0, 0, 2]
        ++ ([0xAA, 0xBB] ++ ([0x66, 0x4C, 0x61, 0x43, 0x80, 0, 0, 34]
          ++ List.replicate 34 0)))
      = stream.Parse ([0x66, 0x4C, 0x61, 0x43, 0x80, 0, 0, 34] ++ List.replicate 34 0) :=
  c9_id3v2_prelude_transparent 4 0 0 0 0 0 2 [0xAA, 0xBB]
    ([0x66, 0x4C, 0x61, 0x43, 0x80, 0, 0, 34] ++ List.replicate 34 0)
    (by decide) (by decide)

/-- C7 witness: the identity at order 2 on the buffer `[1, 2, 3, 5]`. -/
theorem c7_fixed_lpc_round_trip_witness :
    ∃ res, frame.getLPCResiduals (frame.FixedCoeffs 2) 0 2 ([1, 2, 3, 5] : List Int).length
        [1, 2, 3, 5] = .ok res
      ∧ frame.decodeLPC (frame.FixedCoeffs 2) 0 2 ([1, 2, 3, 5] : List Int).length
          (([1, 2, 3, 5] : List Int).take 2 ++ res) = .ok [1, 2, 3, 5] :=
  c7_fixed_lpc_round_trip 2 [1, 2, 3, 5] (by decide) (by decide)

end Flac
